import Mathlib
/-!
Verification of the distributed LRU cache (`src/LRUCache.cpp`).

The C++ core consists of three classes:
* `LRUCache` — a capacity-bounded LRU store holding a doubly linked list
  `lruList` of (key, value) pairs (front = most recently used) and a hash map
  `cacheMap` from keys to list iterators;
* `CacheNode` — id + role wrapping one `LRUCache` (its ZooKeeper registration
  is external I/O, irrelevant to the cache semantics and not modelled);
* `ShardManager` — primaries, per-shard replica lists and per-shard primary
  alive flags, with `insert` / `retrieve` / `disablePrimary` / `getShardIndex`.

The embedding below models the list as a Lean `List (String × String)` and the
hash map by the list of keys it contains (`cacheMapKeys`); the map's iterator
values are recovered by looking the key up in `lruList`, which is exactly what
the C++ iterators point at whenever the map and the list are consistent.
C++ behaviour that is undefined (modulo by zero in `getShardIndex`,
out-of-range `vector::operator[]`) is modelled as `Option.none`.
-/

/-- The node-local miss sentinel returned by `LRUCache::get` (line 46). -/
def MISS : String := "[MISS]"

/-- The shard-wide fallback sentinel returned by `ShardManager::retrieve`
(line 147). -/
def DBFALLBACK : String := "[MISS:DB fallback required]"

/-- State of the C++ `LRUCache`: capacity, the recency list (front = MRU) and
the key set of `cacheMap`. -/
structure LRUCache where
  capacity : Nat
  lruList : List (String × String)
  cacheMapKeys : List String
deriving DecidableEq, Repr

/-- `LRUCache(cap)`: both containers start empty. -/
def LRUCache.empty (cap : Nat) : LRUCache :=
  { capacity := cap, lruList := [], cacheMapKeys := [] }

/-- `LRUCache::get` (lines 44–49): if the key is not in `cacheMap` return
`"[MISS]"`; otherwise splice the key's entry to the front of `lruList` and
return its value.  The entry the map's iterator points at is the first entry
of `lruList` carrying the key; if the map claims the key but the list has no
such entry (an inconsistent state the C++ code would hit as a dangling
iterator) the model returns the state unchanged. -/
def LRUCache.get (c : LRUCache) (key : String) : String × LRUCache :=
  if key ∈ c.cacheMapKeys then
    match c.lruList.find? (fun p => p.1 == key) with
    | some e =>
        (e.2, { c with lruList := e :: c.lruList.eraseP (fun p => p.1 == key) })
    | none => (MISS, c)
  else
    (MISS, c)

/-- `LRUCache::put` (lines 51–65): if the key is present, splice its entry to
the front and overwrite the value; otherwise, if the list is at capacity,
erase the back entry from both containers, then push the new entry at the
front and record it in the map. -/
def LRUCache.put (c : LRUCache) (key value : String) : LRUCache :=
  if key ∈ c.cacheMapKeys then
    { c with lruList := (key, value) :: c.lruList.eraseP (fun p => p.1 == key) }
  else
    let c1 :=
      if c.capacity ≤ c.lruList.length then
        match c.lruList.getLast? with
        | some last =>
            { c with lruList := c.lruList.dropLast,
                     cacheMapKeys := c.cacheMapKeys.erase last.1 }
        | none => c
      else c
    { c1 with lruList := (key, value) :: c1.lruList,
              cacheMapKeys := key :: c1.cacheMapKeys }

/-- The value the recency list associates to a key (first entry wins), used to
state contents-preservation properties. -/
def LRUCache.lookup (c : LRUCache) (key : String) : Option String :=
  (c.lruList.find? (fun p => p.1 == key)).map Prod.snd

/-- The C++ `CacheNode` (lines 68–98): id, role flag, owned `LRUCache`.  Its
constructor also performs a one-time ZooKeeper registration — pure external
I/O that does not touch the cache state, hence absent from the model. -/
structure CacheNode where
  nodeId : String
  isPrimary : Bool
  cache : LRUCache
deriving DecidableEq, Repr

/-- `CacheNode::retrieve` (lines 91–93): pure delegation to `LRUCache::get`
(which mutates the recency order, so the updated node is returned too). -/
def CacheNode.retrieve (n : CacheNode) (key : String) : String × CacheNode :=
  let r := n.cache.get key
  (r.1, { n with cache := r.2 })

/-- `CacheNode::insert` (lines 95–97): pure delegation to `LRUCache::put`. -/
def CacheNode.insert (n : CacheNode) (key value : String) : CacheNode :=
  { n with cache := n.cache.put key value }

/-- State of the C++ `ShardManager` (lines 100–149). -/
structure ShardManager where
  primaries : List CacheNode
  replicas : List (List CacheNode)
  primaryStatus : List Bool
deriving DecidableEq, Repr

/-- A default-constructed `ShardManager`: all three vectors empty. -/
def ShardManager.init : ShardManager :=
  { primaries := [], replicas := [], primaryStatus := [] }

/-- `ShardManager::registerPrimary` (lines 107–110): push the node and an
`alive = true` flag. -/
def ShardManager.registerPrimary (m : ShardManager) (node : CacheNode) :
    ShardManager :=
  { m with primaries := m.primaries ++ [node],
           primaryStatus := m.primaryStatus ++ [true] }

/-- `ShardManager::registerReplicas` (lines 112–115): grow `replicas` to
`index + 1` slots if needed (new slots empty, as `vector::resize` does), then
overwrite slot `index`. -/
def ShardManager.registerReplicas (m : ShardManager) (index : Nat)
    (replicaList : List CacheNode) : ShardManager :=
  let grown :=
    if m.replicas.length ≤ index then
      m.replicas ++ List.replicate (index + 1 - m.replicas.length) []
    else m.replicas
  { m with replicas := grown.set index replicaList }

/-- `ShardManager::disablePrimary` (lines 117–122): in range, clear the flag
(the accompanying `cout` is I/O); out of range, do nothing. -/
def ShardManager.disablePrimary (m : ShardManager) (idx : Nat) : ShardManager :=
  if idx < m.primaryStatus.length then
    { m with primaryStatus := m.primaryStatus.set idx false }
  else m

/-- Model of `std::hash<std::string>`: a concrete deterministic byte hash
standing in for the implementation-defined stdlib hash.  Every property proved
below holds for an arbitrary such function; only determinism matters. -/
def strHash (s : String) : Nat :=
  s.data.foldl (fun h ch => h * 131 + ch.toNat) 5381

/-- `ShardManager::getShardIndex` (lines 124–127): `hash(key) % primaries.size()`.
When `primaries` is empty the C++ expression is a modulo by zero — undefined
behaviour, modelled as `none`; there is no defined-rejection path in the
source. -/
def ShardManager.getShardIndex (m : ShardManager) (key : String) : Option Nat :=
  if m.primaries.length = 0 then none
  else some (strHash key % m.primaries.length)

/-- `ShardManager::insert` (lines 129–135): compute the shard; if its primary
is alive, write to the primary; then write to every replica of the shard.
`primaryStatus[idx]` / `replicas[idx]` out of range is vector UB, modelled as
`none`. -/
def ShardManager.insert (m : ShardManager) (key value : String) :
    Option ShardManager :=
  match m.getShardIndex key with
  | none => none
  | some idx =>
    match m.primaryStatus.get? idx, m.replicas.get? idx with
    | some alive, some reps =>
      let m1 :=
        if alive then
          match m.primaries.get? idx with
          | some p =>
              { m with primaries := m.primaries.set idx (p.insert key value) }
          | none => m
        else m
      some { m1 with
               replicas := m1.replicas.set idx
                 (reps.map (fun r => r.insert key value)) }
    | _, _ => none

/-- The replica loop of `ShardManager::retrieve` (lines 143–146): query the
replicas in order; the first whose answer differs from `"[MISS]"` stops the
loop.  Returns the hit (if any) and the replicas as mutated by the queries
actually performed (a query promotes the entry inside the replica's store). -/
def retrieveReplicas (key : String) :
    List CacheNode → Option String × List CacheNode
  | [] => (none, [])
  | r :: rs =>
    let q := r.retrieve key
    if q.1 ≠ MISS then (some q.1, q.2 :: rs)
    else
      let rest := retrieveReplicas key rs
      (rest.1, q.2 :: rest.2)

/-- `ShardManager::retrieve` (lines 137–148): compute the shard; if the
primary is alive, query it and return on a hit; otherwise run the replica
loop; if nothing hit, return `"[MISS:DB fallback required]"`.  Both the value
and the mutated manager are returned, since every query promotes entries. -/
def ShardManager.retrieve (m : ShardManager) (key : String) :
    Option (String × ShardManager) :=
  match m.getShardIndex key with
  | none => none
  | some idx =>
    match m.primaryStatus.get? idx, m.replicas.get? idx with
    | some alive, some reps =>
      if alive then
        match m.primaries.get? idx with
        | some p =>
          let q := p.retrieve key
          let m1 := { m with primaries := m.primaries.set idx q.2 }
          if q.1 ≠ MISS then some (q.1, m1)
          else
            let rest := retrieveReplicas key reps
            some (rest.1.getD DBFALLBACK,
                  { m1 with replicas := m1.replicas.set idx rest.2 })
        | none => none
      else
        let rest := retrieveReplicas key reps
        some (rest.1.getD DBFALLBACK,
              { m with replicas := m.replicas.set idx rest.2 })
    | _, _ => none

/-! ### The store invariant (C7) -/

/-- The map and the recency list agree on which keys are present. -/
def LRUCache.Consistent (c : LRUCache) : Prop :=
  ∀ k : String, k ∈ c.cacheMapKeys ↔ k ∈ c.lruList.map Prod.fst

/-- The `BoundedStore` invariant: size never exceeds capacity, every key
appears at most once (in the list and in the map), and the map indexes
exactly the keys of the recency list. -/
def LRUCache.Inv (c : LRUCache) : Prop :=
  c.lruList.length ≤ c.capacity ∧
  (c.lruList.map Prod.fst).Nodup ∧
  c.cacheMapKeys.Nodup ∧
  c.Consistent

/-- One store operation, as issued by a caller. -/
inductive CacheOp where
  | get (key : String)
  | put (key value : String)
deriving DecidableEq, Repr

/-- Run one operation, keeping only the store state. -/
def LRUCache.applyOp (c : LRUCache) : CacheOp → LRUCache
  | .get key => (c.get key).2
  | .put key value => c.put key value

/-- Run a sequence of operations. -/
def LRUCache.applyOps (c : LRUCache) (ops : List CacheOp) : LRUCache :=
  ops.foldl LRUCache.applyOp c

/-- The router used to exhibit the sentinel collision: one shard, primary
alive, one replica, capacity 3 everywhere. -/
def collisionRouter : ShardManager :=
  ⟨[⟨"P0", true, LRUCache.empty 3⟩], [[⟨"R00", false, LRUCache.empty 3⟩]], [true]⟩

/-! ### Spec-side description of `retrieve` and bridging lemmas -/

/-- The answer a single node gives, per the spec's BoundedStore contract:
the stored value when the key is present, the node-local MISS sentinel when
absent. -/
def nodeAnswer (n : CacheNode) (key : String) : String :=
  match n.cache.lookup key with
  | some v => v
  | none => MISS

/-- First hit among a list of nodes, in registered order — the spec's
"query replicas in their registered order and return the first hit" (a hit
being an answer other than the node-local MISS sentinel). -/
def firstHit (key : String) : List CacheNode → Option String
  | [] => none
  | r :: rs =>
      if nodeAnswer r key ≠ MISS then some (nodeAnswer r key)
      else firstHit key rs

/-- `retrieve` as the spec words it: compute the shard; if the primary is
alive query it first and return its answer on a hit; otherwise take the first
replica hit in registered order; if nothing hit, the shard-wide fallback
sentinel. -/
def retrieveSpec (m : ShardManager) (key : String) : Option String :=
  match m.getShardIndex key with
  | none => none
  | some idx =>
    match m.primaryStatus.get? idx, m.primaries.get? idx, m.replicas.get? idx with
    | some alive, some p, some reps =>
        if alive = true ∧ nodeAnswer p key ≠ MISS then some (nodeAnswer p key)
        else some ((firstHit key reps).getD DBFALLBACK)
    | _, _, _ => none

/-- One shard, primary alive, one replica; both stores hold `k ↦ v`. -/
def demoRouter : ShardManager :=
  ⟨[⟨"P0", true, (LRUCache.empty 3).put "k" "v"⟩],
   [[⟨"R00", false, (LRUCache.empty 3).put "k" "v"⟩]], [true]⟩

/-- The replica of the C5 counterexample: it holds the key `k`, but the value
stored for it is the node-local MISS sentinel itself. -/
def c5Replica : CacheNode := ⟨"R00", false, (LRUCache.empty 3).put "k" MISS⟩

/-- The C5 counterexample router: one shard whose primary has been disabled
via `disablePrimary`, with `c5Replica` as its only replica. -/
def c5Router : ShardManager :=
  ShardManager.disablePrimary
    ⟨[⟨"P0", true, LRUCache.empty 3⟩], [[c5Replica]], [true]⟩ 0

/-- Router for the C5 witness: one shard with its primary disabled and a
single replica holding `k ↦ v`. -/
def c5GoodRouter : ShardManager :=
  ShardManager.disablePrimary
    ⟨[⟨"P0", true, LRUCache.empty 3⟩],
     [[⟨"R00", false, (LRUCache.empty 3).put "k" "v"⟩]], [true]⟩ 0

/-! ### Helper lemmas about list operations used by the store -/

/-- Splicing the found entry to the front permutes the list. -/
theorem perm_cons_eraseP_of_find? {α : Type} (p : α → Bool) :
    ∀ {l : List α} {e : α}, l.find? p = some e → l.Perm (e :: l.eraseP p) := by
  intro l
  induction l with
  | nil => intro e h; simp at h
  | cons a t ih =>
    intro e h
    by_cases hp : p a = true
    · rw [List.find?_cons_of_pos t hp] at h
      cases h
      rw [List.eraseP_cons_of_pos hp]
    · rw [List.find?_cons_of_neg t hp] at h
      rw [List.eraseP_cons_of_neg hp]
      exact ((ih h).cons a).trans (List.Perm.swap e a _)

/-- A key-search on the entry list succeeds exactly when the key occurs among
the entry keys. -/
theorem find?_key_isSome_iff (key : String) :
    ∀ l : List (String × String),
      (l.find? (fun p => p.1 == key)).isSome = true ↔ key ∈ l.map Prod.fst := by
  intro l
  induction l with
  | nil => simp
  | cons a t ih =>
    cases hb : (a.1 == key) with
    | true =>
      have : a.1 = key := by simpa using hb
      simp [List.find?_cons_of_pos _ hb, this]
    | false =>
      have hne : a.1 ≠ key := by simpa using hb
      rw [List.find?_cons_of_neg _ (by simp [hb])]
      rw [List.map_cons]
      simp [List.mem_cons, Ne.symm hne, ih]

/-- Erasing one element that cannot satisfy `p` does not change `find? p`. -/
theorem find?_eraseP_of_incompat {α : Type} (p q : α → Bool)
    (hpq : ∀ x, q x = true → p x = false) :
    ∀ l : List α, (l.eraseP q).find? p = l.find? p := by
  intro l
  induction l with
  | nil => rfl
  | cons a t ih =>
    by_cases hq : q a = true
    · rw [List.eraseP_cons_of_pos hq, List.find?_cons_of_neg t (by simp [hpq a hq])]
    · rw [List.eraseP_cons_of_neg hq]
      by_cases hp : p a = true
      · rw [List.find?_cons_of_pos _ hp, List.find?_cons_of_pos _ hp]
      · rw [List.find?_cons_of_neg _ hp, List.find?_cons_of_neg _ hp, ih]

/-- A list with a last element is its `dropLast` followed by that element. -/
theorem eq_dropLast_concat_of_getLast? {α : Type} {l : List α} {a : α}
    (h : l.getLast? = some a) : l = l.dropLast ++ [a] := by
  have hne : l ≠ [] := by intro he; subst he; simp at h
  rw [List.getLast?_eq_getLast l hne] at h
  injection h with h2
  rw [← h2]
  exact (List.dropLast_append_getLast hne).symm

/-- C9: `LRUCache::get` changes only the recency ordering, never the
contents: capacity and map keys are unchanged, the entry list after the call
is a permutation of the one before, and the value the store associates to
every key (present or absent) is unchanged — whether or not the looked-up key
is present. -/
theorem c9_get_preserves_contents (c : LRUCache) (key : String) :
    (c.get key).2.capacity = c.capacity ∧
    (c.get key).2.cacheMapKeys = c.cacheMapKeys ∧
    (c.get key).2.lruList.Perm c.lruList ∧
    ∀ k : String, (c.get key).2.lookup k = c.lookup k := by
  unfold LRUCache.get
  by_cases hc : key ∈ c.cacheMapKeys
  case neg => simp [hc]
  case pos =>
    simp only [hc, if_true]
    cases hf : c.lruList.find? (fun p => p.1 == key) with
    | none => simp
    | some e =>
      have he : e.1 = key := by simpa using List.find?_some hf
      refine ⟨rfl, rfl, (perm_cons_eraseP_of_find? _ hf).symm, ?_⟩
      intro k
      by_cases hk : k = key
      · subst hk
        simp only [LRUCache.lookup]
        rw [List.find?_cons_of_pos _ (by simpa using he), hf]
      · simp only [LRUCache.lookup]
        rw [List.find?_cons_of_neg _ (by simp [he, Ne.symm hk]),
            find?_eraseP_of_incompat _ _ (fun x hx => ?_)]
        have : x.1 = key := by simpa using hx
        simp [this, Ne.symm hk]

/-! ### Step equations for `get` and `put` -/

/-- `put` on an absent key with room: push front. -/
theorem LRUCache.put_absent (c : LRUCache) (key value : String)
    (h1 : key ∉ c.cacheMapKeys) (h2 : ¬ c.capacity ≤ c.lruList.length) :
    c.put key value =
      ⟨c.capacity, (key, value) :: c.lruList, key :: c.cacheMapKeys⟩ := by
  unfold LRUCache.put
  simp [h1, h2]

/-- `put` on an absent key at capacity: evict the tail entry, push front. -/
theorem LRUCache.put_absent_evict (c : LRUCache) (key value : String)
    (last : String × String)
    (h1 : key ∉ c.cacheMapKeys) (h2 : c.capacity ≤ c.lruList.length)
    (h3 : c.lruList.getLast? = some last) :
    c.put key value =
      ⟨c.capacity, (key, value) :: c.lruList.dropLast,
        key :: c.cacheMapKeys.erase last.1⟩ := by
  unfold LRUCache.put
  simp [h1, h2, h3]

/-- `put` on a present key: splice to front with the new value. -/
theorem LRUCache.put_present (c : LRUCache) (key value : String)
    (h1 : key ∈ c.cacheMapKeys) :
    c.put key value =
      ⟨c.capacity, (key, value) :: c.lruList.eraseP (fun p => p.1 == key),
        c.cacheMapKeys⟩ := by
  unfold LRUCache.put
  simp [h1]

/-- `get` on an absent key: MISS, state unchanged. -/
theorem LRUCache.get_absent (c : LRUCache) (key : String)
    (h1 : key ∉ c.cacheMapKeys) :
    c.get key = (MISS, c) := by
  unfold LRUCache.get
  simp [h1]

/-- `get` on a present key: the found entry's value, entry spliced to front. -/
theorem LRUCache.get_present (c : LRUCache) (key : String) (e : String × String)
    (h1 : key ∈ c.cacheMapKeys)
    (h2 : c.lruList.find? (fun p => p.1 == key) = some e) :
    c.get key =
      (e.2, ⟨c.capacity, e :: c.lruList.eraseP (fun p => p.1 == key),
        c.cacheMapKeys⟩) := by
  unfold LRUCache.get
  simp [h1, h2]

/-- Inserting three distinct keys into an empty capacity-3 store fills it,
most recent first. -/
theorem put3_state (a b c va vb vc : String)
    (hab : a ≠ b) (hac : a ≠ c) (hbc : b ≠ c) :
    (((LRUCache.empty 3).put a va).put b vb).put c vc
      = ⟨3, [(c, vc), (b, vb), (a, va)], [c, b, a]⟩ := by
  rw [show (LRUCache.empty 3).put a va = ⟨3, [(a, va)], [a]⟩ from
    LRUCache.put_absent _ _ _ (by simp [LRUCache.empty]) (by simp [LRUCache.empty])]
  rw [LRUCache.put_absent _ b vb (by simp [Ne.symm hab]) (by simp)]
  rw [LRUCache.put_absent _ c vc (by simp [Ne.symm hac, Ne.symm hbc]) (by simp)]

/-- The fourth distinct insert evicts the oldest entry. -/
theorem put4_state (a b c d va vb vc vd : String)
    (hab : a ≠ b) (hac : a ≠ c) (had : a ≠ d)
    (hbc : b ≠ c) (hbd : b ≠ d) (hcd : c ≠ d) :
    ((((LRUCache.empty 3).put a va).put b vb).put c vc).put d vd
      = ⟨3, [(d, vd), (c, vc), (b, vb)], [d, c, b]⟩ := by
  rw [put3_state a b c va vb vc hab hac hbc]
  rw [LRUCache.put_absent_evict _ d vd (a, va)
    (by simp [Ne.symm had, Ne.symm hbd, Ne.symm hcd]) (by simp) (by simp)]
  simp [List.erase_cons, Ne.symm hac, Ne.symm hab, beq_iff_eq]

/-- C1: in a capacity-3 store starting empty, after putting four distinct keys
a, b, c, d in order, key a has been evicted: a subsequent get of a returns the
node-local MISS sentinel, while gets of b, c and d (in sequence) return the
values inserted for them. -/
theorem c1_lru_eviction (a b c d va vb vc vd : String)
    (hab : a ≠ b) (hac : a ≠ c) (had : a ≠ d)
    (hbc : b ≠ c) (hbd : b ≠ d) (hcd : c ≠ d) :
    ((((((LRUCache.empty 3).put a va).put b vb).put c vc).put d vd).get a).1 = MISS ∧
    (((((((LRUCache.empty 3).put a va).put b vb).put c vc).put d vd).get a).2.get b).1 = vb ∧
    ((((((((LRUCache.empty 3).put a va).put b vb).put c vc).put d vd).get a).2.get b).2.get c).1 = vc ∧
    (((((((((LRUCache.empty 3).put a va).put b vb).put c vc).put d vd).get a).2.get b).2.get c).2.get d).1 = vd := by
  have edb : (d == b) = false := beq_eq_false_iff_ne.mpr (Ne.symm hbd)
  have edc : (d == c) = false := beq_eq_false_iff_ne.mpr (Ne.symm hcd)
  have ecb : (c == b) = false := beq_eq_false_iff_ne.mpr (Ne.symm hbc)
  have ebc : (b == c) = false := beq_eq_false_iff_ne.mpr hbc
  have ebd : (b == d) = false := beq_eq_false_iff_ne.mpr hbd
  have ecd : (c == d) = false := beq_eq_false_iff_ne.mpr hcd
  have h1 : (((((LRUCache.empty 3).put a va).put b vb).put c vc).put d vd).get a
      = (MISS, ⟨3, [(d, vd), (c, vc), (b, vb)], [d, c, b]⟩) := by
    rw [put4_state a b c d va vb vc vd hab hac had hbc hbd hcd,
      LRUCache.get_absent _ a (by simp [had, hac, hab])]
  have h2 : (LRUCache.get ⟨3, [(d, vd), (c, vc), (b, vb)], [d, c, b]⟩ b)
      = (vb, ⟨3, [(b, vb), (d, vd), (c, vc)], [d, c, b]⟩) := by
    rw [LRUCache.get_present _ b (b, vb) (by simp) (by simp [List.find?, edb, ecb])]
    simp [List.eraseP, edb, ecb]
  have h3 : (LRUCache.get ⟨3, [(b, vb), (d, vd), (c, vc)], [d, c, b]⟩ c)
      = (vc, ⟨3, [(c, vc), (b, vb), (d, vd)], [d, c, b]⟩) := by
    rw [LRUCache.get_present _ c (c, vc) (by simp) (by simp [List.find?, ebc, edc])]
    simp [List.eraseP, ebc, edc]
  have h4 : (LRUCache.get ⟨3, [(c, vc), (b, vb), (d, vd)], [d, c, b]⟩ d)
      = (vd, ⟨3, [(d, vd), (c, vc), (b, vb)], [d, c, b]⟩) := by
    rw [LRUCache.get_present _ d (d, vd) (by simp) (by simp [List.find?, ecd, ebd])]
    simp [List.eraseP, ecd, ebd]
  rw [h1]
  simp [h2, h3, h4]

/-- C2: in a capacity-3 store, after putting distinct keys a, b, c, a get of a
succeeds (returning its value) and promotes a to MRU (front of the recency
list); a subsequent put of a fourth distinct key d evicts b, the least
recently touched key: get of b then returns the MISS sentinel while a
survives, its get returning the value inserted for a. -/
theorem c2_recency_promotion (a b c d va vb vc vd : String)
    (hab : a ≠ b) (hac : a ≠ c) (had : a ≠ d)
    (hbc : b ≠ c) (hbd : b ≠ d) (hcd : c ≠ d) :
    (((((LRUCache.empty 3).put a va).put b vb).put c vc).get a).1 = va ∧
    (((((LRUCache.empty 3).put a va).put b vb).put c vc).get a).2.lruList.head? = some (a, va) ∧
    (((((((LRUCache.empty 3).put a va).put b vb).put c vc).get a).2.put d vd).get b).1 = MISS ∧
    ((((((((LRUCache.empty 3).put a va).put b vb).put c vc).get a).2.put d vd).get b).2.get a).1 = va := by
  have eca : (c == a) = false := beq_eq_false_iff_ne.mpr (Ne.symm hac)
  have eba : (b == a) = false := beq_eq_false_iff_ne.mpr (Ne.symm hab)
  have eda : (d == a) = false := beq_eq_false_iff_ne.mpr (Ne.symm had)
  have ecb : (c == b) = false := beq_eq_false_iff_ne.mpr (Ne.symm hbc)
  have h1 : ((((LRUCache.empty 3).put a va).put b vb).put c vc).get a
      = (va, ⟨3, [(a, va), (c, vc), (b, vb)], [c, b, a]⟩) := by
    rw [put3_state a b c va vb vc hab hac hbc,
      LRUCache.get_present _ a (a, va) (by simp) (by simp [List.find?, eca, eba])]
    simp [List.eraseP, eca, eba]
  have h2 : (LRUCache.put ⟨3, [(a, va), (c, vc), (b, vb)], [c, b, a]⟩ d vd)
      = ⟨3, [(d, vd), (a, va), (c, vc)], [d, c, a]⟩ := by
    rw [LRUCache.put_absent_evict _ d vd (b, vb)
      (by simp [Ne.symm had, Ne.symm hbd, Ne.symm hcd]) (by simp) (by simp)]
    simp [List.erase_cons, ecb, beq_iff_eq, Ne.symm hab]
  have h3 : (LRUCache.get ⟨3, [(d, vd), (a, va), (c, vc)], [d, c, a]⟩ b)
      = (MISS, ⟨3, [(d, vd), (a, va), (c, vc)], [d, c, a]⟩) :=
    LRUCache.get_absent _ b (by simp [hbd, hbc, Ne.symm hab])
  have h4 : (LRUCache.get ⟨3, [(d, vd), (a, va), (c, vc)], [d, c, a]⟩ a)
      = (va, ⟨3, [(a, va), (d, vd), (c, vc)], [d, c, a]⟩) := by
    rw [LRUCache.get_present _ a (a, va) (by simp) (by simp [List.find?, eda])]
    simp [List.eraseP, eda]
  rw [h1]
  simp [h2, h3, h4]

/-- Witness for C1 at concrete keys and values. -/
theorem c1_lru_eviction_witness :
    ((((((LRUCache.empty 3).put "a" "1").put "b" "2").put "c" "3").put "d" "4").get "a").1 = MISS ∧
    (((((((LRUCache.empty 3).put "a" "1").put "b" "2").put "c" "3").put "d" "4").get "a").2.get "b").1 = "2" ∧
    ((((((((LRUCache.empty 3).put "a" "1").put "b" "2").put "c" "3").put "d" "4").get "a").2.get "b").2.get "c").1 = "3" ∧
    (((((((((LRUCache.empty 3).put "a" "1").put "b" "2").put "c" "3").put "d" "4").get "a").2.get "b").2.get "c").2.get "d").1 = "4" :=
  c1_lru_eviction "a" "b" "c" "d" "1" "2" "3" "4" (by decide) (by decide)
    (by decide) (by decide) (by decide) (by decide)

/-- Witness for C2 at concrete keys and values. -/
theorem c2_recency_promotion_witness :
    (((((LRUCache.empty 3).put "a" "1").put "b" "2").put "c" "3").get "a").1 = "1" ∧
    (((((LRUCache.empty 3).put "a" "1").put "b" "2").put "c" "3").get "a").2.lruList.head? = some ("a", "1") ∧
    (((((((LRUCache.empty 3).put "a" "1").put "b" "2").put "c" "3").get "a").2.put "d" "4").get "b").1 = MISS ∧
    ((((((((LRUCache.empty 3).put "a" "1").put "b" "2").put "c" "3").get "a").2.put "d" "4").get "b").2.get "a").1 = "1" :=
  c2_recency_promotion "a" "b" "c" "d" "1" "2" "3" "4" (by decide) (by decide)
    (by decide) (by decide) (by decide) (by decide)

/-- `put` never changes the capacity field. -/
theorem LRUCache.put_capacity (c : LRUCache) (key value : String) :
    (c.put key value).capacity = c.capacity := by
  unfold LRUCache.put
  by_cases h : key ∈ c.cacheMapKeys
  · simp [h]
  · simp only [h, if_false]
    by_cases h2 : c.capacity ≤ c.lruList.length
    · simp only [h2, if_true]
      cases hg : c.lruList.getLast? <;> simp
    · simp [h2]

/-- Frame facts about `get`: capacity and map keys unchanged, the entry list
permuted, every lookup unchanged. -/
theorem LRUCache.get_frame (c : LRUCache) (key : String) :
    (c.get key).2.capacity = c.capacity ∧
    (c.get key).2.cacheMapKeys = c.cacheMapKeys ∧
    (c.get key).2.lruList.Perm c.lruList ∧
    ∀ k : String, (c.get key).2.lookup k = c.lookup k := by
  unfold LRUCache.get
  by_cases hc : key ∈ c.cacheMapKeys
  case neg => simp [hc]
  case pos =>
    simp only [hc, if_true]
    cases hf : c.lruList.find? (fun p => p.1 == key) with
    | none => simp
    | some e =>
      have he : e.1 = key := by simpa using List.find?_some hf
      refine ⟨rfl, rfl, (perm_cons_eraseP_of_find? _ hf).symm, ?_⟩
      intro k
      by_cases hk : k = key
      · subst hk
        simp only [LRUCache.lookup]
        rw [List.find?_cons_of_pos _ (by simpa using he), hf]
      · simp only [LRUCache.lookup]
        rw [List.find?_cons_of_neg _ (by simp [he, Ne.symm hk]),
            find?_eraseP_of_incompat _ _ (fun x hx => ?_)]
        have : x.1 = key := by simpa using hx
        simp [this, Ne.symm hk]

/-- In a duplicate-free list ending in `y`, membership in the front part is
membership in the whole minus `y`. -/
theorem mem_dropLast_of_concat_nodup {ys : List String} {y k : String}
    (h : (ys ++ [y]).Nodup) : k ∈ ys ↔ (k ∈ ys ++ [y] ∧ k ≠ y) := by
  have hy : y ∉ ys := by
    intro hmem
    exact (List.disjoint_of_nodup_append h) hmem (by simp)
  constructor
  · intro hk
    exact ⟨List.mem_append_left _ hk, fun he => hy (he ▸ hk)⟩
  · rintro ⟨hk, hne⟩
    rcases List.mem_append.mp hk with h1 | h1
    · exact h1
    · simp at h1; exact absurd h1 hne

/-- `get` preserves the store invariant. -/
theorem LRUCache.Inv.get_preserved {c : LRUCache} (key : String) (h : c.Inv) :
    ((c.get key).2).Inv := by
  obtain ⟨hlen, hnodup, hmk, hcons⟩ := h
  obtain ⟨hcap, hmap, hperm, _⟩ := LRUCache.get_frame c key
  have hkeys := hperm.map Prod.fst
  refine ⟨?_, ?_, ?_, ?_⟩
  · rw [hcap, hperm.length_eq]; exact hlen
  · exact (hkeys.nodup_iff).mpr hnodup
  · rw [hmap]; exact hmk
  · intro k
    rw [hmap]
    exact (hcons k).trans (hkeys.mem_iff).symm

/-- `put` preserves the store invariant when the capacity is positive. -/
theorem LRUCache.Inv.put_preserved {c : LRUCache} (key value : String)
    (hcap : 0 < c.capacity) (h : c.Inv) : (c.put key value).Inv := by
  obtain ⟨hlen, hnodup, hmk, hcons⟩ := h
  by_cases hk : key ∈ c.cacheMapKeys
  · -- key present: splice to front with the new value
    have hkl : key ∈ c.lruList.map Prod.fst := (hcons key).mp hk
    have hfs : (c.lruList.find? (fun p => p.1 == key)).isSome = true :=
      (find?_key_isSome_iff key c.lruList).mpr hkl
    obtain ⟨e, hf⟩ := Option.isSome_iff_exists.mp hfs
    have he : e.1 = key := by simpa using List.find?_some hf
    have hperm := perm_cons_eraseP_of_find? _ hf
    have hkeysperm :
        (c.lruList.map Prod.fst).Perm
          (key :: (c.lruList.eraseP (fun p => p.1 == key)).map Prod.fst) := by
      have h2 := hperm.map Prod.fst
      rw [List.map_cons, he] at h2
      exact h2
    rw [LRUCache.put_present c key value hk]
    refine ⟨?_, ?_, hmk, ?_⟩
    · have hpe : (fun p => p.1 == key) e = true := by simpa using he
      have h3 : (c.lruList.eraseP (fun p => p.1 == key)).length + 1
          = c.lruList.length :=
        List.length_eraseP_add_one (List.mem_of_find?_eq_some hf) hpe
      simp only [List.length_cons]
      omega
    · simp only [List.map_cons]
      exact (hkeysperm.nodup_iff).mp hnodup
    · intro k
      simp only [List.map_cons]
      exact (hcons k).trans (hkeysperm.mem_iff)
  · -- key absent
    have hkl : key ∉ c.lruList.map Prod.fst := fun hmem => hk ((hcons key).mpr hmem)
    by_cases hfull : c.capacity ≤ c.lruList.length
    · -- at capacity: evict the tail entry
      have hne : c.lruList ≠ [] := by
        intro h0
        rw [h0] at hfull
        simp at hfull
        omega
      have hg := List.getLast?_eq_getLast c.lruList hne
      rw [LRUCache.put_absent_evict c key value (c.lruList.getLast hne) hk hfull hg]
      have hsplit : c.lruList = c.lruList.dropLast ++ [c.lruList.getLast hne] :=
        (List.dropLast_append_getLast hne).symm
      have hkeysplit : c.lruList.map Prod.fst
          = c.lruList.dropLast.map Prod.fst ++ [(c.lruList.getLast hne).1] := by
        conv_lhs => rw [hsplit]
        simp
      refine ⟨?_, ?_, ?_, ?_⟩
      · have : c.lruList.length = c.lruList.dropLast.length + 1 := by
          conv_lhs => rw [hsplit]
          simp
        simp only [List.length_cons]
        omega
      · have hnd : (c.lruList.dropLast.map Prod.fst ++ [(c.lruList.getLast hne).1]).Nodup := by
          rw [← hkeysplit]; exact hnodup
        have hnd2 : (c.lruList.dropLast.map Prod.fst).Nodup := (List.nodup_append.mp hnd).1
        have hknotin : key ∉ c.lruList.dropLast.map Prod.fst := by
          intro hmem
          exact hkl (hkeysplit ▸ List.mem_append_left _ hmem)
        simp only [List.map_cons]
        exact List.nodup_cons.mpr ⟨hknotin, hnd2⟩
      · refine List.nodup_cons.mpr ⟨?_, hmk.erase _⟩
        intro hmem
        exact hk (List.mem_of_mem_erase hmem)
      · intro k
        simp only [List.map_cons, List.mem_cons]
        by_cases hke : k = key
        · simp [hke]
        · simp only [hke, false_or]
          have hnd : (c.lruList.dropLast.map Prod.fst ++ [(c.lruList.getLast hne).1]).Nodup := by
            rw [← hkeysplit]; exact hnodup
          constructor
          · intro hmem
            have h5 := (hmk.mem_erase_iff).mp hmem
            have h6 := (hcons k).mp h5.2
            rw [hkeysplit] at h6
            exact (mem_dropLast_of_concat_nodup hnd).mpr ⟨h6, h5.1⟩
          · intro hmem
            have h5 := (mem_dropLast_of_concat_nodup hnd).mp hmem
            refine (hmk.mem_erase_iff).mpr ⟨h5.2, ?_⟩
            exact (hcons k).mpr (hkeysplit ▸ h5.1)
    · -- below capacity: plain push
      rw [LRUCache.put_absent c key value hk hfull]
      refine ⟨?_, ?_, ?_, ?_⟩
      · simp only [List.length_cons]
        omega
      · simp only [List.map_cons]
        exact List.nodup_cons.mpr ⟨hkl, hnodup⟩
      · exact List.nodup_cons.mpr ⟨hk, hmk⟩
      · intro k
        simp only [List.map_cons, List.mem_cons]
        by_cases hke : k = key
        · simp [hke]
        · simp only [hke, false_or]
          exact hcons k

/-- C7: for every store with positive capacity satisfying the invariant —
size bounded by capacity, duplicate-free keys, map and list mutually
consistent — every sequence of get and put operations preserves the
invariant. -/
theorem c7_store_invariant (c : LRUCache) (ops : List CacheOp)
    (hcap : 0 < c.capacity) (hinv : c.Inv) : (c.applyOps ops).Inv := by
  induction ops generalizing c with
  | nil => exact hinv
  | cons op t ih =>
    have hstep : (c.applyOp op).Inv := by
      cases op with
      | get key => exact hinv.get_preserved key
      | put key value => exact hinv.put_preserved key value hcap
    have hcapstep : 0 < (c.applyOp op).capacity := by
      cases op with
      | get key =>
        show 0 < (c.get key).2.capacity
        rw [(LRUCache.get_frame c key).1]; exact hcap
      | put key value =>
        show 0 < (c.put key value).capacity
        rw [LRUCache.put_capacity]; exact hcap
    exact ih _ hcapstep hstep

/-- Witness for C7: a concrete operation sequence on an empty capacity-3
store (which satisfies the invariant trivially). -/
theorem c7_store_invariant_witness :
    ((LRUCache.empty 3).applyOps
      [CacheOp.put "a" "1", CacheOp.get "a", CacheOp.put "b" "2",
       CacheOp.put "c" "3", CacheOp.put "d" "4", CacheOp.get "x"]).Inv :=
  c7_store_invariant _ _ (by decide)
    ⟨by simp [LRUCache.empty], by simp [LRUCache.empty],
     by simp [LRUCache.empty], fun k => by simp [LRUCache.empty]⟩

/-! ### Shard-level claims: easy cases (C6, C8, C10) -/

/-- C6 (divergence of the code from the spec): with no primaries registered,
`getShardIndex` evaluates `hash(key) % primaries.size()` with size zero —
undefined behaviour in C++, modelled as `none`.  The source contains no
defined-rejection path for an empty topology, so the lookup is not rejected
with a defined error as the claim requires. -/
theorem c6_shardIndex_empty_topology_undefined :
    ∀ key : String, ShardManager.init.getShardIndex key = none :=
  fun _ => rfl

/-- C8: `disablePrimary` with an in-range index clears exactly that shard's
alive flag — primaries, replicas, and every other shard's flag are untouched —
and with an out-of-range index it is a complete no-op: the router state is
returned unchanged and no failure is signalled. -/
theorem c8_disablePrimary_semantics (m : ShardManager) (idx : Nat) :
    (idx < m.primaryStatus.length →
      (m.disablePrimary idx).primaries = m.primaries ∧
      (m.disablePrimary idx).replicas = m.replicas ∧
      (m.disablePrimary idx).primaryStatus.get? idx = some false ∧
      ∀ j : Nat, j ≠ idx →
        (m.disablePrimary idx).primaryStatus.get? j = m.primaryStatus.get? j) ∧
    (¬ idx < m.primaryStatus.length → m.disablePrimary idx = m) := by
  constructor
  · intro h
    have hd : m.disablePrimary idx
        = { m with primaryStatus := m.primaryStatus.set idx false } := by
      unfold ShardManager.disablePrimary
      simp [h]
    rw [hd]
    refine ⟨rfl, rfl, ?_, fun j hj => ?_⟩
    · simp [List.get?_eq_getElem?, List.getElem?_set_self h]
    · simp [List.get?_eq_getElem?, List.getElem?_set_ne (Ne.symm hj)]
  · intro h
    unfold ShardManager.disablePrimary
    simp [h]

/-- Witness for C8: a one-shard router; disabling shard 0 clears its flag,
disabling shard 5 leaves the router unchanged. -/
theorem c8_disablePrimary_semantics_witness :
    ((ShardManager.mk [⟨"P0", true, LRUCache.empty 3⟩] [[]] [true]).disablePrimary
        0).primaryStatus.get? 0 = some false ∧
    (ShardManager.mk [⟨"P0", true, LRUCache.empty 3⟩] [[]] [true]).disablePrimary 5
      = ShardManager.mk [⟨"P0", true, LRUCache.empty 3⟩] [[]] [true] :=
  ⟨((c8_disablePrimary_semantics
      (ShardManager.mk [⟨"P0", true, LRUCache.empty 3⟩] [[]] [true]) 0).1
      (by decide)).2.2.1,
   (c8_disablePrimary_semantics
      (ShardManager.mk [⟨"P0", true, LRUCache.empty 3⟩] [[]] [true]) 5).2
      (by decide)⟩

/-- C10: the node-local miss sentinel is an ordinary string value, so a stored
value equal to it is indistinguishable from absence: after routing
`insert(k, "[MISS]")`, the primary really holds the pair, yet `retrieve(k)`
treats every node's answer as a miss and produces the shard-wide fallback
sentinel instead of the stored value. -/
theorem c10_sentinel_collision :
    (collisionRouter.insert "k" MISS).map
        (fun m1 => m1.primaries.map (fun p => p.cache.lookup "k"))
      = some [some MISS] ∧
    ((collisionRouter.insert "k" MISS).bind
        (fun m1 => (m1.retrieve "k").map Prod.fst))
      = some DBFALLBACK ∧
    DBFALLBACK ≠ MISS :=
  ⟨rfl, rfl, by decide⟩

/-- On a consistent store, the value returned by `get` is the spec-level node
answer. -/
theorem retrieve_fst_eq_nodeAnswer (n : CacheNode) (key : String)
    (h : n.cache.Consistent) : (n.retrieve key).1 = nodeAnswer n key := by
  unfold CacheNode.retrieve nodeAnswer LRUCache.lookup
  unfold LRUCache.get
  by_cases hc : key ∈ n.cache.cacheMapKeys
  · have hkl : key ∈ n.cache.lruList.map Prod.fst := (h key).mp hc
    have hfs : (n.cache.lruList.find? (fun p => p.1 == key)).isSome = true :=
      (find?_key_isSome_iff key n.cache.lruList).mpr hkl
    obtain ⟨e, hf⟩ := Option.isSome_iff_exists.mp hfs
    simp [hc, hf]
  · have hkl : key ∉ n.cache.lruList.map Prod.fst := fun hm => hc ((h key).mpr hm)
    have hfn : n.cache.lruList.find? (fun p => p.1 == key) = none := by
      rcases hf : n.cache.lruList.find? (fun p => p.1 == key) with _ | e
      · exact hf
      · exact absurd ((find?_key_isSome_iff key n.cache.lruList).mp (by simp [hf])) hkl
    simp [hc, hfn]

/-- On consistent replicas, the value component of the replica loop is the
spec-level first hit. -/
theorem retrieveReplicas_fst_eq_firstHit (key : String) (reps : List CacheNode)
    (h : ∀ r ∈ reps, r.cache.Consistent) :
    (retrieveReplicas key reps).1 = firstHit key reps := by
  induction reps with
  | nil => rfl
  | cons r rs ih =>
    have hr : (r.retrieve key).1 = nodeAnswer r key :=
      retrieve_fst_eq_nodeAnswer r key (h r (by simp))
    have ih2 := ih (fun x hx => h x (by simp [hx]))
    simp only [retrieveReplicas, firstHit, hr]
    by_cases hm : nodeAnswer r key ≠ MISS
    · simp [hm]
    · simp [hm, ih2]

/-- C3: on a well-formed topology whose stores are consistent, `retrieve`
returns exactly what the spec describes — primary first when alive with
immediate return on a hit, then the replicas in registered order, then the
shard-wide fallback sentinel — and the two sentinels are distinct values. -/
theorem c3_retrieve_routing (m : ShardManager) (key : String)
    (hne : m.primaries ≠ [])
    (hst : m.primaryStatus.length = m.primaries.length)
    (hrep : m.replicas.length = m.primaries.length)
    (hpc : ∀ p ∈ m.primaries, p.cache.Consistent)
    (hrc : ∀ reps ∈ m.replicas, ∀ r ∈ reps, r.cache.Consistent) :
    (m.retrieve key).map Prod.fst = retrieveSpec m key ∧ MISS ≠ DBFALLBACK := by
  have hlen : 0 < m.primaries.length := List.length_pos.mpr hne
  have hidx : strHash key % m.primaries.length < m.primaries.length :=
    Nat.mod_lt _ hlen
  have hg : m.getShardIndex key = some (strHash key % m.primaries.length) := by
    unfold ShardManager.getShardIndex
    simp [Nat.pos_iff_ne_zero.mp hlen]
  have hsl : strHash key % m.primaries.length < m.primaryStatus.length := by
    rw [hst]; exact hidx
  have hrl : strHash key % m.primaries.length < m.replicas.length := by
    rw [hrep]; exact hidx
  have hs := List.get?_eq_get hsl
  have hp := List.get?_eq_get hidx
  have hr := List.get?_eq_get hrl
  have hpcons : (m.primaries.get ⟨strHash key % m.primaries.length, hidx⟩).cache.Consistent :=
    hpc _ (List.get_mem _ _ _)
  have hrcons : ∀ r ∈ m.replicas.get ⟨strHash key % m.primaries.length, hrl⟩,
      r.cache.Consistent :=
    hrc _ (List.get_mem _ _ _)
  have hpa := retrieve_fst_eq_nodeAnswer _ key hpcons
  have hra := retrieveReplicas_fst_eq_firstHit key _ hrcons
  simp only [List.get_eq_getElem] at hpa hra
  refine ⟨?_, by decide⟩
  unfold ShardManager.retrieve retrieveSpec
  rw [hg]
  simp only [hs, hp, hr]
  cases halive : m.primaryStatus.get ⟨strHash key % m.primaries.length, hsl⟩ with
  | false => simp [hra]
  | true =>
    by_cases hmiss :
        nodeAnswer (m.primaries.get ⟨strHash key % m.primaries.length, hidx⟩) key
          = MISS
    · simp only [List.get_eq_getElem] at hmiss
      simp [hpa, hra, hmiss]
    · simp only [List.get_eq_getElem] at hmiss
      simp [hpa, hra, hmiss]

/-- Witness for C3 on a concrete router. -/
theorem c3_retrieve_routing_witness :
    (demoRouter.retrieve "k").map Prod.fst = retrieveSpec demoRouter "k" ∧
    MISS ≠ DBFALLBACK :=
  c3_retrieve_routing demoRouter "k" (by simp [demoRouter]) (by decide) (by decide)
    (by
      intro p hp
      simp only [demoRouter, List.mem_singleton] at hp
      subst hp
      simp [LRUCache.Consistent, LRUCache.empty, LRUCache.put])
    (by
      intro reps hreps r hr
      simp only [demoRouter, List.mem_singleton] at hreps
      subst hreps
      simp only [List.mem_singleton] at hr
      subst hr
      simp [LRUCache.Consistent, LRUCache.empty, LRUCache.put])

/-- C4: on a well-formed topology, `insert` succeeds and writes the pair to
the key's shard's primary exactly when that primary is alive — a disabled
primary's store is untouched — while every replica of the shard receives the
write unconditionally; the alive flags and all other shards are unchanged. -/
theorem c4_insert_fanout (m : ShardManager) (key value : String)
    (hne : m.primaries ≠ [])
    (hst : m.primaryStatus.length = m.primaries.length)
    (hrep : m.replicas.length = m.primaries.length) :
    ∃ m1, m.insert key value = some m1 ∧
      m1.primaryStatus = m.primaryStatus ∧
      (m.primaryStatus.get? (strHash key % m.primaries.length) = some true →
        m1.primaries.get? (strHash key % m.primaries.length)
          = (m.primaries.get? (strHash key % m.primaries.length)).map
              (fun p => p.insert key value)) ∧
      (m.primaryStatus.get? (strHash key % m.primaries.length) = some false →
        m1.primaries = m.primaries) ∧
      (m1.replicas.get? (strHash key % m.primaries.length)
          = (m.replicas.get? (strHash key % m.primaries.length)).map
              (fun reps => reps.map (fun r => r.insert key value))) ∧
      (∀ j : Nat, j ≠ strHash key % m.primaries.length →
        m1.replicas.get? j = m.replicas.get? j ∧
        m1.primaries.get? j = m.primaries.get? j) := by
  have hlen : 0 < m.primaries.length := List.length_pos.mpr hne
  have hidx : strHash key % m.primaries.length < m.primaries.length :=
    Nat.mod_lt _ hlen
  have hg : m.getShardIndex key = some (strHash key % m.primaries.length) := by
    unfold ShardManager.getShardIndex
    simp [Nat.pos_iff_ne_zero.mp hlen]
  have hsl : strHash key % m.primaries.length < m.primaryStatus.length := by
    rw [hst]; exact hidx
  have hrl : strHash key % m.primaries.length < m.replicas.length := by
    rw [hrep]; exact hidx
  have hs := List.get?_eq_get hsl
  have hp := List.get?_eq_get hidx
  have hr := List.get?_eq_get hrl
  unfold ShardManager.insert
  rw [hg]
  simp only [hs, hp, hr]
  cases halive : m.primaryStatus.get ⟨strHash key % m.primaries.length, hsl⟩ with
  | true =>
    refine ⟨_, rfl, rfl, fun _ => ?_, fun hfalse => ?_, ?_, fun j hj => ⟨?_, ?_⟩⟩
    · simp [List.get?_eq_getElem?, List.getElem?_set_self hidx]
    · simp at hfalse
    · simp [List.get?_eq_getElem?, List.getElem?_set_self hrl]
    · simp [List.get?_eq_getElem?, List.getElem?_set_ne (Ne.symm hj)]
    · simp [List.get?_eq_getElem?, List.getElem?_set_ne (Ne.symm hj)]
  | false =>
    refine ⟨_, rfl, rfl, fun htrue => ?_, fun _ => ?_, ?_, fun j hj => ⟨?_, ?_⟩⟩
    · simp at htrue
    · simp
    · simp [List.get?_eq_getElem?, List.getElem?_set_self hrl]
    · simp [List.get?_eq_getElem?, List.getElem?_set_ne (Ne.symm hj)]
    · simp

/-- Witness for C4: fan-out of a concrete insert on the demo router. -/
theorem c4_insert_fanout_witness :
    ∃ m1, demoRouter.insert "k2" "w" = some m1 ∧
      m1.primaryStatus = demoRouter.primaryStatus ∧
      (demoRouter.primaryStatus.get?
          (strHash "k2" % demoRouter.primaries.length) = some true →
        m1.primaries.get? (strHash "k2" % demoRouter.primaries.length)
          = (demoRouter.primaries.get?
              (strHash "k2" % demoRouter.primaries.length)).map
              (fun p => p.insert "k2" "w")) ∧
      (demoRouter.primaryStatus.get?
          (strHash "k2" % demoRouter.primaries.length) = some false →
        m1.primaries = demoRouter.primaries) ∧
      (m1.replicas.get? (strHash "k2" % demoRouter.primaries.length)
          = (demoRouter.replicas.get?
              (strHash "k2" % demoRouter.primaries.length)).map
              (fun reps => reps.map (fun r => r.insert "k2" "w"))) ∧
      (∀ j : Nat, j ≠ strHash "k2" % demoRouter.primaries.length →
        m1.replicas.get? j = demoRouter.replicas.get? j ∧
        m1.primaries.get? j = demoRouter.primaries.get? j) :=
  c4_insert_fanout demoRouter "k2" "w" (by simp [demoRouter]) (by decide)
    (by decide)

/-! ### C5: failover — counterexample and amended statement -/

/-- If some replica holds the key with value `v`, every replica holding the
key agrees on `v`, and `v` is not the MISS sentinel, then the first hit is
`v`. -/
theorem firstHit_of_agree (key v : String) (hv : v ≠ MISS) :
    ∀ reps : List CacheNode,
      (∃ r ∈ reps, r.cache.lookup key = some v) →
      (∀ r ∈ reps, ∀ w, r.cache.lookup key = some w → w = v) →
      firstHit key reps = some v := by
  intro reps
  induction reps with
  | nil =>
    rintro ⟨r, hr, _⟩ _
    simp at hr
  | cons r rs ih =>
    rintro ⟨s, hs, hlook⟩ hag
    cases hl : r.cache.lookup key with
    | some w =>
      have hw : w = v := hag r (by simp) w hl
      subst hw
      simp [firstHit, nodeAnswer, hl, hv]
    | none =>
      have hss : s ∈ rs := by
        rcases List.mem_cons.mp hs with h1 | h1
        · subst h1
          rw [hl] at hlook
          cases hlook
        · exact h1
      have hrec := ih ⟨s, hss, hlook⟩ (fun x hx => hag x (by simp [hx]))
      simpa [firstHit, nodeAnswer, hl] using hrec

/-- If no replica holds the key, there is no hit. -/
theorem firstHit_of_absent (key : String) :
    ∀ reps : List CacheNode,
      (∀ r ∈ reps, r.cache.lookup key = none) →
      firstHit key reps = none := by
  intro reps
  induction reps with
  | nil => intro _; rfl
  | cons r rs ih =>
    intro h
    have hl := h r (by simp)
    simp [firstHit, nodeAnswer, hl, ih (fun x hx => h x (by simp [hx]))]

/-- C5 counterexample: after `disablePrimary`, the shard's replica holds key
`k` (with stored value `"[MISS]"`), yet `retrieve` does not return that held
value — it returns the shard-wide fallback sentinel, a different string.  So
"retrieve returns the value held by a replica" fails as universally stated. -/
theorem c5_failover_counterexample :
    c5Replica.cache.lookup "k" = some MISS ∧
    (c5Router.retrieve "k").map Prod.fst = some DBFALLBACK ∧
    DBFALLBACK ≠ MISS :=
  ⟨rfl, rfl, by decide⟩

/-- C5 (amended): after the shard's primary is disabled, for a key held by at
least one of the shard's replicas with a common value `v` that is not itself
the node-local MISS sentinel, `retrieve` returns `v`; and for a key absent
from all of the shard's replicas, `retrieve` returns the shard-wide fallback
sentinel, which is distinct from the node-local MISS sentinel. -/
theorem c5_failover_amended (m : ShardManager) (key : String)
    (hne : m.primaries ≠ [])
    (hst : m.primaryStatus.length = m.primaries.length)
    (hrep : m.replicas.length = m.primaries.length)
    (hdis : m.primaryStatus.get? (strHash key % m.primaries.length)
      = some false)
    (hrc : ∀ reps ∈ m.replicas, ∀ r ∈ reps, r.cache.Consistent) :
    (∀ v : String, v ≠ MISS →
      (∀ reps, m.replicas.get? (strHash key % m.primaries.length) = some reps →
        (∃ r ∈ reps, r.cache.lookup key = some v) ∧
        (∀ r ∈ reps, ∀ w, r.cache.lookup key = some w → w = v)) →
      (m.retrieve key).map Prod.fst = some v) ∧
    ((∀ reps, m.replicas.get? (strHash key % m.primaries.length) = some reps →
        ∀ r ∈ reps, r.cache.lookup key = none) →
      (m.retrieve key).map Prod.fst = some DBFALLBACK ∧ DBFALLBACK ≠ MISS) := by
  have hlen : 0 < m.primaries.length := List.length_pos.mpr hne
  have hidx : strHash key % m.primaries.length < m.primaries.length :=
    Nat.mod_lt _ hlen
  have hg : m.getShardIndex key = some (strHash key % m.primaries.length) := by
    unfold ShardManager.getShardIndex
    simp [Nat.pos_iff_ne_zero.mp hlen]
  have hsl : strHash key % m.primaries.length < m.primaryStatus.length := by
    rw [hst]; exact hidx
  have hrl : strHash key % m.primaries.length < m.replicas.length := by
    rw [hrep]; exact hidx
  have hs := List.get?_eq_get hsl
  have hp := List.get?_eq_get hidx
  have hr := List.get?_eq_get hrl
  have hrcons : ∀ r ∈ m.replicas.get ⟨strHash key % m.primaries.length, hrl⟩,
      r.cache.Consistent :=
    hrc _ (List.get_mem _ _ _)
  have hra := retrieveReplicas_fst_eq_firstHit key _ hrcons
  simp only [List.get_eq_getElem] at hra
  have hfalse : m.primaryStatus.get ⟨strHash key % m.primaries.length, hsl⟩
      = false := by
    rw [hs] at hdis
    injection hdis
  have hret : (m.retrieve key).map Prod.fst
      = some ((firstHit key
          (m.replicas.get ⟨strHash key % m.primaries.length, hrl⟩)).getD
            DBFALLBACK) := by
    unfold ShardManager.retrieve
    rw [hg]
    simp only [hs, hp, hr, hfalse]
    simp [hra]
  constructor
  · intro v hv hreps
    obtain ⟨hex, hag⟩ := hreps _ hr
    rw [hret, firstHit_of_agree key v hv _ hex hag]
    rfl
  · intro habs
    refine ⟨?_, by decide⟩
    rw [hret, firstHit_of_absent key _ (habs _ hr)]
    rfl

/-- Witness for C5 (amended) on a concrete router: the replica-held key is
served with its value, a key held nowhere yields the fallback sentinel. -/
theorem c5_failover_amended_witness :
    (c5GoodRouter.retrieve "k").map Prod.fst = some "v" ∧
    (c5GoodRouter.retrieve "nope").map Prod.fst = some DBFALLBACK ∧
    DBFALLBACK ≠ MISS :=
  ⟨(c5_failover_amended c5GoodRouter "k" (by decide) (by decide) (by decide)
      (by decide)
      (by
        intro reps hreps r hr
        simp only [c5GoodRouter, ShardManager.disablePrimary] at hreps
        simp at hreps
        subst hreps
        simp at hr
        subst hr
        simp [LRUCache.Consistent, LRUCache.put, LRUCache.empty])).1
    "v" (by decide)
    (by
      intro reps hrepseq
      have h2 : some [(⟨"R00", false, (LRUCache.empty 3).put "k" "v"⟩ : CacheNode)]
          = some reps := hrepseq
      injection h2 with h3
      subst h3
      refine ⟨⟨⟨"R00", false, (LRUCache.empty 3).put "k" "v"⟩, by simp, rfl⟩, ?_⟩
      intro r hr w hw
      simp at hr
      subst hr
      have h4 : some "v" = some w := hw
      injection h4 with h5
      exact h5.symm),
   (c5_failover_amended c5GoodRouter "nope" (by decide) (by decide) (by decide)
      (by decide)
      (by
        intro reps hreps r hr
        simp only [c5GoodRouter, ShardManager.disablePrimary] at hreps
        simp at hreps
        subst hreps
        simp at hr
        subst hr
        simp [LRUCache.Consistent, LRUCache.put, LRUCache.empty])).2
    (by
      intro reps hrepseq r hr
      have h2 : some [(⟨"R00", false, (LRUCache.empty 3).put "k" "v"⟩ : CacheNode)]
          = some reps := hrepseq
      injection h2 with h3
      subst h3
      simp at hr
      subst hr
      rfl)⟩
